import Mathlib

/-!
# Verification of the orizuru reliable job-queue core

This development gives a shallow embedding of the orizuru library
(`src/consumer.rs`, `src/message.rs`, `src/gc.rs`, `src/producer.rs`):
a Redis-backed job queue with at-least-once delivery.

The Redis server state is modelled explicitly (`RedisState`): lists of
byte payloads keyed by name, a set of registered consumer names, the
heartbeat hash and the per-consumer heartbeat string keys.  Commands
that the code issues (`LPUSH`, `LREM key 1 v`, `RPOPLPUSH`, `SREM`,
`HSET`, `SET .. PX ..`) are pure state transformers.  Transport
failures of the underlying connection are modelled by boolean oracles
passed to each operation: `true` means the round-trip succeeds, `false`
means it fails, in which case the server state is unchanged and the
operation reports an error (a `MULTI/EXEC` pipeline is all-or-nothing,
hence a single oracle per transaction; the heartbeat pipeline is not
atomic and gets one oracle per command).

Payloads are opaque byte strings, modelled as `List Nat`.
-/

/-- Opaque byte payload stored in a Redis list. -/
abbrev Payload := List Nat

/-- State of the Redis server visible to the library: lists of payloads,
sets of member strings, hashes and plain string keys (with a TTL, for
`SET .. PX ..`). -/
structure RedisState where
  lists : String → List Payload
  sets : String → List String
  hashes : String → String → Option String
  strings : String → Option (String × Nat)

/-- Replace the list stored at key `q` by `l`. -/
def RedisState.setList (st : RedisState) (q : String) (l : List Payload) : RedisState :=
  { st with lists := fun k => if k = q then l else st.lists k }

/-- Semantics of `LPUSH q p`: prepend `p` at the head of the list `q`. -/
def RedisState.lpush (st : RedisState) (q : String) (p : Payload) : RedisState :=
  st.setList q (p :: st.lists q)

/-- Semantics of `LREM q 1 p`: remove the first occurrence of `p` in the
list `q`, scanning from the head. -/
def RedisState.lrem1 (st : RedisState) (q : String) (p : Payload) : RedisState :=
  st.setList q ((st.lists q).erase p)

/-- Semantics of `RPOPLPUSH src dst`: atomically pop the tail element of
`src` and push it at the head of `dst`; returns the element (`none`
models the `Nil` reply on an empty source). -/
def RedisState.rpoplpush (st : RedisState) (src dst : String) :
    Option Payload × RedisState :=
  match (st.lists src).getLast? with
  | none => (none, st)
  | some p => (some p, (st.setList src (st.lists src).dropLast).lpush dst p)

/-- Semantics of `SREM key m`: remove every occurrence of the member `m`
from the set at `key`. -/
def RedisState.srem (st : RedisState) (key m : String) : RedisState :=
  { st with sets := fun k => if k = key then (st.sets key).filter (fun x => x ≠ m) else st.sets k }

/-- Semantics of `HSET key field v`. -/
def RedisState.hset (st : RedisState) (key field v : String) : RedisState :=
  { st with hashes := fun k f => if k = key ∧ f = field then some v else st.hashes k f }

/-- Semantics of `SET key v PX ttl`. -/
def RedisState.setpx (st : RedisState) (key v : String) (ttl : Nat) : RedisState :=
  { st with strings := fun k => if k = key then some (v, ttl) else st.strings k }

/-! ## Key schema (constants of `src/consumer.rs`) -/

/-- Key of the consumer registry set (`CONSUMERS_KEY`). -/
def CONSUMERS_KEY : String := "orizuru:consumers"

/-- Template of the per-consumer heartbeat key (`HEARTBEAT_KEY`). -/
def HEARTBEAT_KEY : String := "orizuru:consumers:\x7bconsumer\x7d:heartbeat"

/-- Key of the heartbeat hash (`HEARTBEATS_KEY`). -/
def HEARTBEATS_KEY : String := "orizuru:heartbeats"

/-- Template of the per-consumer processing queue key
(`PROCESSING_QUEUE_KEY`). -/
def PROCESSING_QUEUE_KEY : String := "orizuru:consumers:\x7bconsumer\x7d:processing"

/-- Template of the per-consumer unacked queue key
(`UNACKED_QUEUE_KEY`). -/
def UNACKED_QUEUE_KEY : String := "orizuru:consumers:\x7bconsumer\x7d:unacked"

/-! ## MessageGuard (`src/message.rs`) -/

/-- The four states of a `MessageGuard` (`MessageState` in
`src/message.rs`). -/
inductive MessageState where
  | Unacked
  | Acked
  | Rejected
  | Pushed
deriving DecidableEq, Repr

/-- A `MessageGuard<T>`: the decoded message, the raw payload bytes and
the two queue names captured from the consumer.  The Rust guard also
holds a borrow of the connection; here the connection state is threaded
explicitly through each operation. -/
structure MessageGuard (T : Type) where
  message : T
  payload : Payload
  processing_queue_name : String
  unacked_queue_name : String
  state : MessageState
deriving DecidableEq

/-- `MessageGuard::ack`: set the state to `Acked`, then issue
`LREM P(c) 1 payload`.  The oracle `io` tells whether the round-trip
succeeds; on failure the server state is unchanged but the local state
transition has already happened. -/
def MessageGuard.ack {T : Type} (g : MessageGuard T) (io : Bool) (st : RedisState) :
    MessageGuard T × Except Unit Unit × RedisState :=
  let g' := { g with state := MessageState.Acked }
  if io then (g', Except.ok (), st.lrem1 g.processing_queue_name g.payload)
  else (g', Except.error (), st)

/-- `MessageGuard::push`: set the state to `Pushed`, then issue the
atomic `MULTI/EXEC` transaction `LPUSH target payload; LREM P(c) 1
payload`.  The transaction is all-or-nothing, hence a single oracle. -/
def MessageGuard.push {T : Type} (g : MessageGuard T) (push_queue_name : String)
    (io : Bool) (st : RedisState) :
    MessageGuard T × Except Unit Unit × RedisState :=
  let g' := { g with state := MessageState.Pushed }
  if io then
    (g', Except.ok (),
      (st.lpush push_queue_name g.payload).lrem1 g.processing_queue_name g.payload)
  else (g', Except.error (), st)

/-- `MessageGuard::reject`: set the state to `Rejected`, then delegate to
`push(unacked_queue_name)` (which itself sets the state to `Pushed`). -/
def MessageGuard.reject {T : Type} (g : MessageGuard T) (io : Bool) (st : RedisState) :
    MessageGuard T × Except Unit Unit × RedisState :=
  let g1 := { g with state := MessageState.Rejected }
  g1.push g.unacked_queue_name io st

/-- `impl Drop for MessageGuard`: if the state is still `Unacked`,
execute `reject` and discard its result; otherwise do nothing. -/
def MessageGuard.drop {T : Type} (g : MessageGuard T) (io : Bool) (st : RedisState) :
    MessageGuard T × RedisState :=
  if g.state = MessageState.Unacked then
    let r := g.reject io st
    (r.1, r.2.2)
  else (g, st)

/-! ## Consumer (`src/consumer.rs`) -/

/-- The `Consumer` struct: its name, the derived queue and heartbeat
keys, and the local `stopped` cell.  The connection is threaded
explicitly. -/
structure Consumer where
  name : String
  source_queue_name : String
  processing_queue_name : String
  unacked_queue_name : String
  heartbeat_key : String
  heartbeats_key : String
  stopped : Bool
deriving DecidableEq

/-- `Consumer::new`: derive the per-consumer keys from the name using the
key templates, start not stopped. -/
def Consumer.new (name source_queue_name : String) : Consumer :=
  { name := name
    source_queue_name := source_queue_name
    processing_queue_name := PROCESSING_QUEUE_KEY.replace "\x7bconsumer\x7d" name
    unacked_queue_name := UNACKED_QUEUE_KEY.replace "\x7bconsumer\x7d" name
    heartbeat_key := HEARTBEAT_KEY.replace "\x7bconsumer\x7d" name
    heartbeats_key := HEARTBEATS_KEY
    stopped := false }

/-- `Consumer::is_stopped`. -/
def Consumer.is_stopped (c : Consumer) : Bool := c.stopped

/-- `Consumer::stop`: set the local `stopped` flag, then issue
`SREM orizuru:consumers name`.  The flag is set before the round-trip,
so it is set even when the `SREM` fails. -/
def Consumer.stop (c : Consumer) (io : Bool) (st : RedisState) :
    Consumer × Except Unit Unit × RedisState :=
  let c' := { c with stopped := true }
  if io then (c', Except.ok (), st.srem CONSUMERS_KEY c.name)
  else (c', Except.error (), st)

/-- Timestamp computed by `Consumer::heartbeat`:
`SystemTime::now().duration_since(UNIX_EPOCH)` in milliseconds, or `0`
when the clock reads before the epoch. -/
def tsOf (clock : Except Unit Nat) : Nat :=
  match clock with
  | Except.ok d => d
  | Except.error _ => 0

/-- `Consumer::heartbeat`: compute `ts`, then pipeline
`HSET heartbeats_key name ts` and `SET heartbeat_key ts PX ttl`.
The pipeline is not marked atomic, so each command gets its own oracle;
the `RedisResult` of the pipeline is discarded and `ts` is returned
regardless. -/
def Consumer.heartbeat (c : Consumer) (clock : Except Unit Nat) (ttl : Nat)
    (io1 io2 : Bool) (st : RedisState) : Nat × RedisState :=
  let ts := tsOf clock
  let st1 := if io1 then st.hset c.heartbeats_key c.name (toString ts) else st
  let st2 := if io2 then st1.setpx c.heartbeat_key (toString ts) ttl else st1
  (ts, st2)

/-- Replies of `BRPOPLPUSH` other than a bulk-bytes `Value::Data`
payload: these hit the `unknown result type` branch of
`Consumer::next`. -/
inductive StrangeReply where
  | nil
  | int (n : Int)
  | status (s : String)
  | okay
  | bulk
deriving DecidableEq

/-- Outcome of the blocking `BRPOPLPUSH` round-trip inside
`Consumer::next`: a faithful reply (the server pops the tail of the
source queue), a transport error, or an uninterpretable reply type. -/
inductive PopOutcome where
  | good
  | terr
  | strange (v : StrangeReply)
deriving DecidableEq

/-- `Consumer::next::<T>`: check the `stopped` flag, then issue
`BRPOPLPUSH source processing 0`, reject non-bytes replies, then decode
the payload with the codec `dec`.

Result: `none` models the call never returning (the blocking pop waits
forever on an empty source queue); `some (r, st')` models the call
returning `r` with server state `st'`, where `r` mirrors the Rust
`Option<Result<MessageGuard<T>, &str>>`. -/
def Consumer.next {T : Type} (c : Consumer) (dec : Payload → Except String T)
    (io : PopOutcome) (st : RedisState) :
    Option (Option (Except String (MessageGuard T)) × RedisState) :=
  if c.stopped then some (none, st) else
  match io with
  | PopOutcome.terr =>
    some (some (Except.error "failed to fetch next message with brpoplpush"), st)
  | PopOutcome.strange _ =>
    some (some (Except.error "unknown result type for next message"), st)
  | PopOutcome.good =>
    match st.rpoplpush c.source_queue_name c.processing_queue_name with
    | (none, _) => none
    | (some pl, st') =>
      match dec pl with
      | Except.error e => some (some (Except.error e), st')
      | Except.ok m =>
        some (some (Except.ok
          { message := m
            payload := pl
            processing_queue_name := c.processing_queue_name
            unacked_queue_name := c.unacked_queue_name
            state := MessageState.Unacked }), st')

/-! ## GC (`src/gc.rs`) -/

/-- Unacked queue key built by `GC::collect_one` with `format!`. -/
def GC.unackedKeyOf (name : String) : String :=
  "orizuru:consumers:" ++ name ++ ":unacked"

/-- Processing queue key built by `GC::collect_one` with `format!`. -/
def GC.processingKeyOf (name : String) : String :=
  "orizuru:consumers:" ++ name ++ ":processing"

/-- The `for _ in 0..n` loop of `GC::collect_one`: at most `fuel`
iterations of `RPOPLPUSH uq pq`; a command error (oracle `ioR` indexed
by the number of completed iterations) aborts with the moves so far
kept on the server; a `Nil` reply returns the running total. -/
def GC.collectOneLoop (uq pq : String) (ioR : Nat → Bool) :
    Nat → Nat → RedisState → Except Unit Nat × RedisState
  | 0, total, st => (Except.ok total, st)
  | fuel + 1, total, st =>
    if ioR total then
      match st.rpoplpush uq pq with
      | (none, st') => (Except.ok total, st')
      | (some _, st') => GC.collectOneLoop uq pq ioR fuel (total + 1) st'
    else (Except.error (), st)

/-- `GC::collect_one`: read `n = LLEN U(c)` once (oracle `ioLlen`),
return 0 when the queue is empty, otherwise run at most `n` iterations
of `RPOPLPUSH U(c) P(c)` and return the number of payloads moved. -/
def GC.collect_one (name : String) (ioLlen : Bool) (ioR : Nat → Bool)
    (st : RedisState) : Except Unit Nat × RedisState :=
  if ioLlen then
    let n := (st.lists (GC.unackedKeyOf name)).length
    if n = 0 then (Except.ok 0, st)
    else GC.collectOneLoop (GC.unackedKeyOf name) (GC.processingKeyOf name) ioR n 0 st
  else (Except.error (), st)

/-- The per-name accumulation loop of `GC::collect`: a `collect_one`
that errors contributes zero and the sweep continues with the next
name. -/
def GC.collectGo (ioL : String → Bool) (ioR : String → Nat → Bool) :
    List String → Nat → RedisState → Except Unit Nat × RedisState
  | [], total, st => (Except.ok total, st)
  | name :: rest, total, st =>
    let r := GC.collect_one name (ioL name) (ioR name) st
    GC.collectGo ioL ioR rest
      (total + (match r.1 with | Except.error _ => 0 | Except.ok i => i)) r.2

/-- `GC::collect`: read `SMEMBERS orizuru:consumers` (oracle `ioS`; a
failure there propagates), then accumulate `collect_one` over the
returned names. -/
def GC.collect (ioS : Bool) (ioL : String → Bool) (ioR : String → Nat → Bool)
    (st : RedisState) : Except Unit Nat × RedisState :=
  if ioS then GC.collectGo ioL ioR (st.sets CONSUMERS_KEY) 0 st
  else (Except.error (), st)

/-! ## The global transition system

Interleavings of producer, consumer, guard and GC steps, used for the
no-loss property.  `consumed` records the payloads destroyed by a
successful `ack` (the only destruction the library performs). -/

/-- Global system state: the Redis server plus the multiset of payloads
destroyed by `ack`. -/
structure Sys where
  redis : RedisState
  consumed : List Payload

/-- One atomic step of any participant.  Guards appearing in actions
carry arbitrary field values; each action also carries the transport
oracle of its round-trip. -/
inductive Act (T : Type) where
  | produce (q : String) (p : Payload) (io : Bool)
  | claim (src dst : String) (io : Bool)
  | ackA (g : MessageGuard T) (io : Bool)
  | rejectA (g : MessageGuard T) (io : Bool)
  | pushA (g : MessageGuard T) (q : String) (io : Bool)
  | dropA (g : MessageGuard T) (io : Bool)
  | gcMove (uq pq : String) (io : Bool)

/-- Semantics of one step, defined through the embedded library
operations.  `produce` is the `LPUSH` issued by `Producer::push`; `claim` is the
server-side move of `BRPOPLPUSH` inside `Consumer::next` (no-op while
blocked on an empty source); `gcMove` is one `RPOPLPUSH` of
`GC::collect_one`. -/
def stepAct {T : Type} : Act T → Sys → Sys
  | Act.produce q p io, s =>
    if io then { s with redis := s.redis.lpush q p } else s
  | Act.claim src dst io, s =>
    if io then { s with redis := (s.redis.rpoplpush src dst).2 } else s
  | Act.ackA g io, s =>
    { redis := (g.ack io s.redis).2.2
      consumed := if io then g.payload :: s.consumed else s.consumed }
  | Act.rejectA g io, s => { s with redis := (g.reject io s.redis).2.2 }
  | Act.pushA g q io, s => { s with redis := (g.push q io s.redis).2.2 }
  | Act.dropA g io, s => { s with redis := (g.drop io s.redis).2 }
  | Act.gcMove uq pq io, s =>
    if io then { s with redis := (s.redis.rpoplpush uq pq).2 } else s

/-- The list keys an action may touch. -/
def Act.touched {T : Type} : Act T → List String
  | Act.produce q _ _ => [q]
  | Act.claim src dst _ => [src, dst]
  | Act.ackA g _ => [g.processing_queue_name]
  | Act.rejectA g _ => [g.unacked_queue_name, g.processing_queue_name]
  | Act.pushA g q _ => [q, g.processing_queue_name]
  | Act.dropA g _ => [g.unacked_queue_name, g.processing_queue_name]
  | Act.gcMove uq pq _ => [uq, pq]

/-- Number of copies of payload `p` in the lists named by `K`. -/
def sumCount (p : Payload) (f : String → List Payload) : List String → Nat
  | [] => 0
  | k :: ks => (f k).count p + sumCount p f ks

/-- Number of copies of `p` accounted for over the keys `K`: present in
a list, or destroyed by an `ack`. -/
def totalOver (p : Payload) (K : List String) (s : Sys) : Nat :=
  sumCount p s.redis.lists K + s.consumed.count p

/-- Run a sequence of steps. -/
def stepList {T : Type} : List (Act T) → Sys → Sys
  | [], s => s
  | a :: as, s => stepList as (stepAct a s)

/-- One delivery round of the claim protocol: `next/ack` or
`next/reject`. -/
inductive ConsumerOp where
  | nextAck
  | nextReject
deriving DecidableEq

/-- Execute one `next/ack` or `next/reject` round of consumer `c`:
run `Consumer::next` (with working transport and the identity codec,
which always decodes), and — only when `next` returns a guard — call
`ack` or `reject` on that very guard.  When `next` yields no guard
(stopped, blocked forever, or an error) the round performs nothing
further.  A successful `ack` destroys its payload: it is recorded in
`consumed`. -/
def runConsumerOp (c : Consumer) (op : ConsumerOp) (s : Sys) : Sys :=
  match c.next (fun pl => Except.ok pl) PopOutcome.good s.redis with
  | none => s
  | some (none, st') => { s with redis := st' }
  | some (some (Except.error _), st') => { s with redis := st' }
  | some (some (Except.ok g), st') =>
    match op with
    | ConsumerOp.nextAck =>
      { redis := (g.ack true st').2.2, consumed := g.payload :: s.consumed }
    | ConsumerOp.nextReject => { s with redis := (g.reject true st').2.2 }

/-- Run a sequence of `next/ack` / `next/reject` rounds. -/
def runConsumerOps (c : Consumer) : List ConsumerOp → Sys → Sys
  | [], s => s
  | op :: ops, s => runConsumerOps c ops (runConsumerOp c op s)

/-! ## Basic lemmas about the Redis model -/

@[simp]
theorem RedisState.lists_setList (st : RedisState) (q : String) (l : List Payload)
    (k : String) : (st.setList q l).lists k = if k = q then l else st.lists k := rfl

@[simp]
theorem RedisState.lists_lpush (st : RedisState) (q : String) (p : Payload)
    (k : String) :
    (st.lpush q p).lists k = if k = q then p :: st.lists q else st.lists k := rfl

@[simp]
theorem RedisState.lists_lrem1 (st : RedisState) (q : String) (p : Payload)
    (k : String) :
    (st.lrem1 q p).lists k = if k = q then (st.lists q).erase p else st.lists k := rfl

theorem MessageGuard.ack_fst {T : Type} (g : MessageGuard T) (io : Bool)
    (st : RedisState) : (g.ack io st).1 = { g with state := MessageState.Acked } := by
  cases io <;> rfl

theorem MessageGuard.reject_fst {T : Type} (g : MessageGuard T) (io : Bool)
    (st : RedisState) : (g.reject io st).1 = { g with state := MessageState.Pushed } := by
  cases io <;> rfl

theorem MessageGuard.push_fst {T : Type} (g : MessageGuard T) (q : String) (io : Bool)
    (st : RedisState) : (g.push q io st).1 = { g with state := MessageState.Pushed } := by
  cases io <;> rfl

/-! ## C2: scoped release on drop -/

/-- C2: when a `MessageGuard` is dropped while its state is still
`Unacked`, the drop handler executes `reject()` (exactly once: the drop
is extensionally the single `reject` call); when it is dropped after an
explicit `ack()`, `reject()` or `push()`, the drop performs no Redis
operation and no second reject occurs. -/
theorem guard_drop_scoped_release {T : Type} (g : MessageGuard T) (io : Bool)
    (st : RedisState) :
    (g.state = MessageState.Unacked →
      g.drop io st = ((g.reject io st).1, (g.reject io st).2.2)) ∧
    (g.state ≠ MessageState.Unacked → g.drop io st = (g, st)) ∧
    (∀ io2 st2, ((g.ack io st).1).drop io2 st2 = ((g.ack io st).1, st2)) ∧
    (∀ io2 st2, ((g.reject io st).1).drop io2 st2 = ((g.reject io st).1, st2)) ∧
    (∀ q io2 st2, ((g.push q io st).1).drop io2 st2 = ((g.push q io st).1, st2)) := by
  refine ⟨fun h => ?_, fun h => ?_, fun io2 st2 => ?_, fun io2 st2 => ?_,
    fun q io2 st2 => ?_⟩
  · simp [MessageGuard.drop, h]
  · simp [MessageGuard.drop, h]
  · rw [MessageGuard.ack_fst]
    simp [MessageGuard.drop]
  · rw [MessageGuard.reject_fst]
    simp [MessageGuard.drop]
  · rw [MessageGuard.push_fst]
    simp [MessageGuard.drop]

theorem guard_drop_scoped_release_witness :
    ((⟨(), [7], "p", "u", MessageState.Unacked⟩ : MessageGuard Unit).drop true
        ⟨fun _ => [[7]], fun _ => [], fun _ _ => none, fun _ => none⟩ =
      (((⟨(), [7], "p", "u", MessageState.Unacked⟩ : MessageGuard Unit).reject true
          ⟨fun _ => [[7]], fun _ => [], fun _ _ => none, fun _ => none⟩).1,
        ((⟨(), [7], "p", "u", MessageState.Unacked⟩ : MessageGuard Unit).reject true
          ⟨fun _ => [[7]], fun _ => [], fun _ _ => none, fun _ => none⟩).2.2)) ∧
    ((⟨(), [7], "p", "u", MessageState.Acked⟩ : MessageGuard Unit).drop true
        ⟨fun _ => [[7]], fun _ => [], fun _ _ => none, fun _ => none⟩ =
      ((⟨(), [7], "p", "u", MessageState.Acked⟩ : MessageGuard Unit),
        ⟨fun _ => [[7]], fun _ => [], fun _ _ => none, fun _ => none⟩)) :=
  ⟨(guard_drop_scoped_release _ true _).1 rfl,
    (guard_drop_scoped_release _ true _).2.1 (by decide)⟩

/-! ## C3: reject moves the payload, but ends in state `Pushed` -/

/-- C3 counterexample: after `reject()` returns, the internal state of
the guard is `Pushed`, not `Rejected`: `reject` first sets `Rejected`
but then delegates to `push`, which overwrites the state with
`Pushed`. -/
theorem reject_final_state_cex :
    ((⟨0, [1], "p", "u", MessageState.Unacked⟩ : MessageGuard Nat).reject true
        ⟨fun _ => [], fun _ => [], fun _ _ => none, fun _ => none⟩).1.state =
      MessageState.Pushed ∧
    ¬ ((⟨0, [1], "p", "u", MessageState.Unacked⟩ : MessageGuard Nat).reject true
        ⟨fun _ => [], fun _ => [], fun _ _ => none, fun _ => none⟩).1.state =
      MessageState.Rejected := by
  constructor
  · rfl
  · intro h
    exact absurd h (by decide)

/-- C3 (amended): after `reject()` returns, the internal state of the
guard is `Pushed` (it is set to `Rejected` and immediately overwritten
by the delegated `push`), and the payload has been moved out of the
processing queue `P(c)` into the unack queue `U(c)`. -/
theorem reject_sets_pushed_and_moves {T : Type} (g : MessageGuard T)
    (st : RedisState) (hq : g.unacked_queue_name ≠ g.processing_queue_name) :
    (g.reject true st).1.state = MessageState.Pushed ∧
    (g.reject true st).2.2.lists g.unacked_queue_name =
      g.payload :: st.lists g.unacked_queue_name ∧
    (g.reject true st).2.2.lists g.processing_queue_name =
      (st.lists g.processing_queue_name).erase g.payload ∧
    (∀ k, k ≠ g.unacked_queue_name → k ≠ g.processing_queue_name →
      (g.reject true st).2.2.lists k = st.lists k) ∧
    ((st.lists g.processing_queue_name).count g.payload = 1 →
      g.payload ∈ (g.reject true st).2.2.lists g.unacked_queue_name ∧
      g.payload ∉ (g.reject true st).2.2.lists g.processing_queue_name) := by
  have hq' : g.processing_queue_name ≠ g.unacked_queue_name := Ne.symm hq
  refine ⟨by rw [MessageGuard.reject_fst], ?_, ?_, ?_, ?_⟩
  · simp [MessageGuard.reject, MessageGuard.push, RedisState.lrem1, RedisState.lpush,
      hq, hq']
  · simp [MessageGuard.reject, MessageGuard.push, RedisState.lrem1, RedisState.lpush,
      hq, hq']
  · intro k hk1 hk2
    simp [MessageGuard.reject, MessageGuard.push, RedisState.lrem1, RedisState.lpush,
      hk1, hk2]
  · intro hc
    constructor
    · simp [MessageGuard.reject, MessageGuard.push, RedisState.lrem1, RedisState.lpush,
        hq, hq']
    · simp only [MessageGuard.reject, MessageGuard.push, RedisState.lrem1,
        RedisState.lpush, RedisState.lists_setList, if_pos, if_neg hq']
      intro hmem
      have h0 : ((st.lists g.processing_queue_name).erase g.payload).count g.payload = 0 := by
        rw [List.count_erase_self, hc]
      rw [← List.count_pos_iff] at hmem
      simp only [if_neg hq'] at hmem
      omega

theorem reject_sets_pushed_and_moves_witness :
    ((⟨(), [3], "proc", "unack", MessageState.Unacked⟩ : MessageGuard Unit).reject true
        ⟨fun k => if k = "proc" then [[3]] else [], fun _ => [], fun _ _ => none,
          fun _ => none⟩).1.state = MessageState.Pushed ∧
    ([3] : Payload) ∈
      ((⟨(), [3], "proc", "unack", MessageState.Unacked⟩ : MessageGuard Unit).reject true
        ⟨fun k => if k = "proc" then [[3]] else [], fun _ => [], fun _ _ => none,
          fun _ => none⟩).2.2.lists "unack" ∧
    ([3] : Payload) ∉
      ((⟨(), [3], "proc", "unack", MessageState.Unacked⟩ : MessageGuard Unit).reject true
        ⟨fun k => if k = "proc" then [[3]] else [], fun _ => [], fun _ _ => none,
          fun _ => none⟩).2.2.lists "proc" := by
  have h := reject_sets_pushed_and_moves
    (⟨(), [3], "proc", "unack", MessageState.Unacked⟩ : MessageGuard Unit)
    ⟨fun k => if k = "proc" then [[3]] else [], fun _ => [], fun _ _ => none,
      fun _ => none⟩ (by decide)
  exact ⟨h.1, (h.2.2.2.2 (by decide)).1, (h.2.2.2.2 (by decide)).2⟩

/-! ## C4: state transition happens before the I/O -/

/-- C4: for every guard, the state transition of `ack()`, `reject()` and
`push()` is applied before the Redis I/O, so a failed I/O still leaves
the guard out of `Unacked`; in particular a failed `ack()` leaves the
guard `Acked` locally, the server state untouched, and the drop handler
performs no reject on it. -/
theorem guard_transition_before_io {T : Type} (g : MessageGuard T) (q : String)
    (st : RedisState) :
    (∀ io, (g.ack io st).1.state = MessageState.Acked) ∧
    (∀ io, (g.reject io st).1.state = MessageState.Pushed ∧
      (g.reject io st).1.state ≠ MessageState.Unacked) ∧
    (∀ io, (g.push q io st).1.state = MessageState.Pushed) ∧
    ((g.ack false st).2.2 = st ∧ (g.ack false st).2.1 = Except.error ()) ∧
    ((g.reject false st).2.2 = st) ∧
    ((g.push q false st).2.2 = st) ∧
    (∀ io2 st2, ((g.ack false st).1).drop io2 st2 = ((g.ack false st).1, st2)) := by
  refine ⟨fun io => ?_, fun io => ⟨?_, ?_⟩, fun io => ?_, ⟨rfl, rfl⟩, rfl, rfl,
    fun io2 st2 => ?_⟩
  · rw [MessageGuard.ack_fst]
  · rw [MessageGuard.reject_fst]
  · rw [MessageGuard.reject_fst]
    simp
  · rw [MessageGuard.push_fst]
  · rw [MessageGuard.ack_fst]
    simp [MessageGuard.drop]

/-! ## C5: Consumer::next result shapes -/

/-- C5: `Consumer::next` returns `None` if and only if the consumer is
stopped; otherwise it returns `Some(Err)` on a transport failure of the
blocking pop, on a non-bytes server reply, or on a codec decode
failure, and `Some(Ok(guard))` on success; on a decode failure the
payload remains in the processing queue `P(c)` (and on an empty source
queue the call blocks and never returns). -/
theorem consumer_next_spec {T : Type} (c : Consumer) (dec : Payload → Except String T)
    (st : RedisState) :
    (∀ io, (∃ st', c.next dec io st = some (none, st')) ↔ c.stopped = true) ∧
    (c.stopped = false →
      c.next dec PopOutcome.terr st =
        some (some (Except.error "failed to fetch next message with brpoplpush"), st)) ∧
    (c.stopped = false → ∀ v,
      c.next dec (PopOutcome.strange v) st =
        some (some (Except.error "unknown result type for next message"), st)) ∧
    (c.stopped = false → ∀ pl, (st.lists c.source_queue_name).getLast? = some pl →
      (∀ e, dec pl = Except.error e →
        ∃ st', c.next dec PopOutcome.good st = some (some (Except.error e), st') ∧
          pl ∈ st'.lists c.processing_queue_name) ∧
      (∀ m, dec pl = Except.ok m →
        ∃ st', c.next dec PopOutcome.good st = some (some (Except.ok
            { message := m
              payload := pl
              processing_queue_name := c.processing_queue_name
              unacked_queue_name := c.unacked_queue_name
              state := MessageState.Unacked }), st') ∧
          pl ∈ st'.lists c.processing_queue_name)) ∧
    (c.stopped = false → (st.lists c.source_queue_name).getLast? = none →
      c.next dec PopOutcome.good st = none) := by
  cases hcs : c.stopped with
  | true =>
    refine ⟨fun io => ⟨fun _ => rfl, fun _ => ⟨st, ?_⟩⟩,
      ⟨fun h => absurd h (by decide),
        ⟨fun h => absurd h (by decide),
          ⟨fun h => absurd h (by decide), fun h => absurd h (by decide)⟩⟩⟩⟩
    simp [Consumer.next, hcs]
  | false =>
    have hnotnone : ∀ io, ¬ ∃ st', c.next dec io st = some (none, st') := by
      rintro io ⟨st', h⟩
      cases io with
      | terr => simp [Consumer.next, hcs] at h
      | strange v => simp [Consumer.next, hcs] at h
      | good =>
        rcases hl : (st.lists c.source_queue_name).getLast? with _ | pl
        · simp [Consumer.next, hcs, RedisState.rpoplpush, hl] at h
        · rcases hd : dec pl with e | m
          · simp [Consumer.next, hcs, RedisState.rpoplpush, hl, hd] at h
          · simp [Consumer.next, hcs, RedisState.rpoplpush, hl, hd] at h
    refine ⟨fun io => ⟨fun hex => absurd hex (hnotnone io), fun h => nomatch h⟩,
      fun _ => ?_, fun _ v => ?_, fun _ pl hl => ⟨fun e hd => ?_, fun m hd => ?_⟩,
      fun _ hl => ?_⟩
    · simp [Consumer.next, hcs]
    · simp [Consumer.next, hcs]
    · refine ⟨(st.setList c.source_queue_name
        (st.lists c.source_queue_name).dropLast).lpush c.processing_queue_name pl,
        ?_, ?_⟩
      · simp [Consumer.next, hcs, RedisState.rpoplpush, hl, hd]
      · simp [RedisState.lpush]
    · refine ⟨(st.setList c.source_queue_name
        (st.lists c.source_queue_name).dropLast).lpush c.processing_queue_name pl,
        ?_, ?_⟩
      · simp [Consumer.next, hcs, RedisState.rpoplpush, hl, hd]
      · simp [RedisState.lpush]
    · simp [Consumer.next, hcs, RedisState.rpoplpush, hl]

theorem consumer_next_spec_witness :
    (∃ st', (⟨"c1", "q", "p", "u", "hb", "hbs", true⟩ : Consumer).next
        (fun pl => if pl = [42] then Except.ok (42 : Nat)
          else Except.error "failed to decode value with msgpack")
        PopOutcome.good
        ⟨fun k => if k = "q" then [[42]] else [], fun _ => [], fun _ _ => none,
          fun _ => none⟩ = some (none, st')) ∧
    (∃ st', (⟨"c1", "q", "p", "u", "hb", "hbs", false⟩ : Consumer).next
        (fun pl => if pl = [42] then Except.ok (42 : Nat)
          else Except.error "failed to decode value with msgpack")
        PopOutcome.good
        ⟨fun k => if k = "q" then [[42]] else [], fun _ => [], fun _ _ => none,
          fun _ => none⟩ = some (some (Except.ok
            { message := 42
              payload := [42]
              processing_queue_name := "p"
              unacked_queue_name := "u"
              state := MessageState.Unacked }), st') ∧
      ([42] : Payload) ∈ st'.lists "p") :=
  ⟨((consumer_next_spec _ _ _).1 PopOutcome.good).mpr rfl,
    ((consumer_next_spec _ _ _).2.2.2.1 rfl [42] (by decide)).2 42 rfl⟩

/-! ## C9: heartbeat -/

/-- C9: `Consumer::heartbeat(ttl)` computes `ts` from the clock (the
current time in milliseconds since the epoch, `0` if the clock reads
before the epoch), issues `HSET heartbeats name ts` and
`SET heartbeat_key ts PX ttl` as two pipelined (non-atomic) writes, and
returns `ts`; partial failure of the two writes is tolerated — the
returned value does not depend on the write outcomes and no error is
propagated. -/
theorem consumer_heartbeat_spec (c : Consumer) (clock : Except Unit Nat) (ttl : Nat)
    (st : RedisState) :
    (∀ io1 io2, (c.heartbeat clock ttl io1 io2 st).1 = tsOf clock) ∧
    (∀ d io1 io2, (c.heartbeat (Except.ok d) ttl io1 io2 st).1 = d) ∧
    ((c.heartbeat clock ttl true true st).2.hashes c.heartbeats_key c.name =
        some (toString (tsOf clock)) ∧
      (c.heartbeat clock ttl true true st).2.strings c.heartbeat_key =
        some (toString (tsOf clock), ttl)) ∧
    ((c.heartbeat clock ttl true false st).2.hashes c.heartbeats_key c.name =
        some (toString (tsOf clock)) ∧
      (c.heartbeat clock ttl true false st).2.strings = st.strings) ∧
    ((c.heartbeat clock ttl false true st).2.hashes = st.hashes ∧
      (c.heartbeat clock ttl false true st).2.strings c.heartbeat_key =
        some (toString (tsOf clock), ttl)) ∧
    (∀ io1 io2, (c.heartbeat clock ttl io1 io2 st).2.lists = st.lists ∧
      (c.heartbeat clock ttl io1 io2 st).2.sets = st.sets) := by
  refine ⟨fun io1 io2 => ?_, fun d io1 io2 => ?_, ⟨?_, ?_⟩, ⟨?_, ?_⟩, ⟨?_, ?_⟩,
    fun io1 io2 => ?_⟩
  · cases io1 <;> cases io2 <;> rfl
  · cases io1 <;> cases io2 <;> rfl
  · simp [Consumer.heartbeat, RedisState.hset, RedisState.setpx]
  · simp [Consumer.heartbeat, RedisState.hset, RedisState.setpx]
  · simp [Consumer.heartbeat, RedisState.hset, RedisState.setpx]
  · simp [Consumer.heartbeat, RedisState.hset, RedisState.setpx]
  · simp [Consumer.heartbeat, RedisState.hset, RedisState.setpx]
  · simp [Consumer.heartbeat, RedisState.hset, RedisState.setpx]
  · cases io1 <;> cases io2 <;> exact ⟨rfl, rfl⟩

/-! ## C10: stop sets the flag before deregistering -/

/-- C10: `Consumer::stop` sets the local `stopped` flag before issuing
the `SREM` deregistration, so after `stop()` returns — even when the
`SREM` fails with a transport error — `is_stopped()` is true and every
subsequent `next()` call returns `None` (the Rust `None`, i.e. the
stopped stream end). -/
theorem consumer_stop_spec {T : Type} (c : Consumer) (io : Bool) (st : RedisState)
    (dec : Payload → Except String T) (io2 : PopOutcome) (st2 : RedisState) :
    ((c.stop io st).1.stopped = true) ∧
    ((c.stop io st).1.is_stopped = true) ∧
    ((c.stop false st).2.1 = Except.error () ∧ (c.stop false st).2.2 = st) ∧
    ((c.stop true st).2.2 = st.srem CONSUMERS_KEY c.name) ∧
    ((c.stop io st).1.next dec io2 st2 = some (none, st2)) := by
  have hfst : (c.stop io st).1 = { c with stopped := true } := by
    cases io <;> rfl
  refine ⟨by rw [hfst], by rw [hfst]; rfl, ⟨rfl, rfl⟩, rfl, ?_⟩
  rw [hfst]
  simp [Consumer.next]

/-! ## C6: push re-routes atomically -/

/-- C6: for every guard and target queue `q`, `push(q)` sets the state
to `Pushed` and issues `LPUSH q payload` followed by `LREM P(c) 1
payload` as a single `MULTI/EXEC` transaction (one atomic state
update), so a payload present in `P(c)` is present in `q` after the
transaction (and in both at the intermediate point inside it), and when
`P(c)` held exactly one copy the payload afterwards resides only in
`q`. -/
theorem guard_push_rerouting {T : Type} (g : MessageGuard T) (q : String)
    (st : RedisState) :
    (g.push q true st).1.state = MessageState.Pushed ∧
    (g.push q true st).2.2 =
      (st.lpush q g.payload).lrem1 g.processing_queue_name g.payload ∧
    g.payload ∈ (st.lpush q g.payload).lists q ∧
    (g.payload ∈ st.lists g.processing_queue_name →
      g.payload ∈ (g.push q true st).2.2.lists q) ∧
    (q ≠ g.processing_queue_name →
      (st.lists g.processing_queue_name).count g.payload = 1 →
      g.payload ∈ (g.push q true st).2.2.lists q ∧
      g.payload ∉ (g.push q true st).2.2.lists g.processing_queue_name) ∧
    (∀ k, k ≠ q → k ≠ g.processing_queue_name →
      (g.push q true st).2.2.lists k = st.lists k) := by
  refine ⟨by rw [MessageGuard.push_fst], rfl, by simp [RedisState.lpush], ?_, ?_, ?_⟩
  · intro hmem
    by_cases hqp : q = g.processing_queue_name
    · subst hqp
      simpa [MessageGuard.push, RedisState.lrem1, RedisState.lpush,
        List.erase_cons_head] using hmem
    · simp [MessageGuard.push, RedisState.lrem1, RedisState.lpush, hqp]
  · intro hqp hc
    have hqp' : g.processing_queue_name ≠ q := Ne.symm hqp
    constructor
    · simp [MessageGuard.push, RedisState.lrem1, RedisState.lpush, hqp]
    · have hl : (g.push q true st).2.2.lists g.processing_queue_name
          = (st.lists g.processing_queue_name).erase g.payload := by
        simp [MessageGuard.push, RedisState.lrem1, RedisState.lpush, hqp']
      rw [hl]
      intro hmem
      have h0 := List.count_erase_self g.payload (st.lists g.processing_queue_name)
      rw [hc] at h0
      rw [← List.count_pos_iff] at hmem
      omega
  · intro k hk1 hk2
    simp [MessageGuard.push, RedisState.lrem1, RedisState.lpush, hk1, hk2]

theorem guard_push_rerouting_witness :
    ([5] : Payload) ∈
      ((⟨(), [5], "proc", "unack", MessageState.Unacked⟩ : MessageGuard Unit).push
        "retry" true
        ⟨fun k => if k = "proc" then [[5]] else [], fun _ => [], fun _ _ => none,
          fun _ => none⟩).2.2.lists "retry" ∧
    ([5] : Payload) ∉
      ((⟨(), [5], "proc", "unack", MessageState.Unacked⟩ : MessageGuard Unit).push
        "retry" true
        ⟨fun k => if k = "proc" then [[5]] else [], fun _ => [], fun _ _ => none,
          fun _ => none⟩).2.2.lists "proc" := by
  have h := (guard_push_rerouting
    (⟨(), [5], "proc", "unack", MessageState.Unacked⟩ : MessageGuard Unit) "retry"
    ⟨fun k => if k = "proc" then [[5]] else [], fun _ => [], fun _ _ => none,
      fun _ => none⟩).2.2.2.2.1 (by decide) (by decide)
  exact ⟨h.1, h.2⟩

/-! ## GC lemmas -/

theorem GC.keys_ne (name : String) : GC.unackedKeyOf name ≠ GC.processingKeyOf name := by
  intro h
  rw [GC.unackedKeyOf, GC.processingKeyOf, String.ext_iff] at h
  simp only [String.data_append] at h
  have h1 := List.append_cancel_left h
  exact absurd h1 (by decide)

theorem GC.collectOneLoop_success (uq pq : String) (hne : uq ≠ pq) :
    ∀ (fuel total : Nat) (st : RedisState), (st.lists uq).length = fuel →
      (GC.collectOneLoop uq pq (fun _ => true) fuel total st).1 =
        Except.ok (total + fuel) ∧
      (GC.collectOneLoop uq pq (fun _ => true) fuel total st).2.lists uq = [] ∧
      (GC.collectOneLoop uq pq (fun _ => true) fuel total st).2.lists pq =
        st.lists uq ++ st.lists pq ∧
      (∀ k, k ≠ uq → k ≠ pq →
        (GC.collectOneLoop uq pq (fun _ => true) fuel total st).2.lists k =
          st.lists k) := by
  intro fuel
  induction fuel with
  | zero =>
    intro total st hlen
    have h0 : st.lists uq = [] := List.length_eq_zero.mp hlen
    simp [GC.collectOneLoop, h0]
  | succ n ih =>
    intro total st hlen
    have hne0 : st.lists uq ≠ [] := by
      intro h
      rw [h] at hlen
      simp at hlen
    have hlast : (st.lists uq).getLast? = some ((st.lists uq).getLast hne0) :=
      List.getLast?_eq_getLast _ hne0
    have hstep : GC.collectOneLoop uq pq (fun _ => true) (n + 1) total st =
        GC.collectOneLoop uq pq (fun _ => true) n (total + 1)
          ((st.setList uq (st.lists uq).dropLast).lpush pq
            ((st.lists uq).getLast hne0)) := by
      simp [GC.collectOneLoop, RedisState.rpoplpush, hlast]
    have h1uq : ((st.setList uq (st.lists uq).dropLast).lpush pq
        ((st.lists uq).getLast hne0)).lists uq = (st.lists uq).dropLast := by
      simp [RedisState.lpush, hne]
    have h1pq : ((st.setList uq (st.lists uq).dropLast).lpush pq
        ((st.lists uq).getLast hne0)).lists pq =
        (st.lists uq).getLast hne0 :: st.lists pq := by
      simp [RedisState.lpush, Ne.symm hne]
    have h1k : ∀ k, k ≠ uq → k ≠ pq →
        ((st.setList uq (st.lists uq).dropLast).lpush pq
          ((st.lists uq).getLast hne0)).lists k = st.lists k := by
      intro k hk1 hk2
      simp [RedisState.lpush, hk1, hk2]
    have hlen1 : (((st.setList uq (st.lists uq).dropLast).lpush pq
        ((st.lists uq).getLast hne0)).lists uq).length = n := by
      rw [h1uq, List.length_dropLast, hlen]
      omega
    obtain ⟨ih1, ih2, ih3, ih4⟩ := ih (total + 1) _ hlen1
    refine ⟨?_, ?_, ?_, ?_⟩
    · rw [hstep, ih1]
      congr 1
      omega
    · rw [hstep]
      exact ih2
    · rw [hstep, ih3, h1uq, h1pq]
      conv_rhs => rw [← List.dropLast_append_getLast hne0]
      simp
    · intro k hk1 hk2
      rw [hstep, ih4 k hk1 hk2, h1k k hk1 hk2]

theorem GC.collectOneLoop_le (uq pq : String) (ioR : Nat → Bool) :
    ∀ (fuel total k : Nat) (st : RedisState),
      (GC.collectOneLoop uq pq ioR fuel total st).1 = Except.ok k →
      k ≤ total + fuel := by
  intro fuel
  induction fuel with
  | zero =>
    intro total k st h
    simp [GC.collectOneLoop] at h
    omega
  | succ n ih =>
    intro total k st h
    by_cases hio : ioR total
    · rcases hrp : st.rpoplpush uq pq with ⟨opl, st'⟩
      cases opl with
      | none =>
        simp [GC.collectOneLoop, hio, hrp] at h
        omega
      | some pl =>
        simp only [GC.collectOneLoop, hio, if_true, hrp] at h
        have := ih (total + 1) k st' h
        omega
    · simp [GC.collectOneLoop, hio] at h

/-! ## C7: collect_one -/

/-- C7: `GC::collect_one(c)` reads `n = LLEN U(c)` exactly once (its
control flow is a function of that single snapshot), then performs at
most `n` iterations of `RPOPLPUSH` from `U(c)` to `P(c)` (in the
all-success run it performs exactly `n` and empties `U(c)` into
`P(c)`), stops early when an `RPOPLPUSH` returns nil, and returns the
number of payloads actually moved; a Redis command error aborts the
sweep and is propagated. -/
theorem gc_collect_one_spec (name : String) (st : RedisState) :
    (∀ ioR, GC.collect_one name false ioR st = (Except.error (), st)) ∧
    ((GC.collect_one name true (fun _ => true) st).1 =
        Except.ok (st.lists (GC.unackedKeyOf name)).length ∧
      (GC.collect_one name true (fun _ => true) st).2.lists (GC.unackedKeyOf name) =
        [] ∧
      (GC.collect_one name true (fun _ => true) st).2.lists
          (GC.processingKeyOf name) =
        st.lists (GC.unackedKeyOf name) ++ st.lists (GC.processingKeyOf name)) ∧
    (∀ ioR k, (GC.collect_one name true ioR st).1 = Except.ok k →
      k ≤ (st.lists (GC.unackedKeyOf name)).length) ∧
    (∀ ioR, ioR 0 = false → st.lists (GC.unackedKeyOf name) ≠ [] →
      (GC.collect_one name true ioR st).1 = Except.error ()) ∧
    (∀ ioR fuel total (st2 : RedisState),
      st2.lists (GC.unackedKeyOf name) = [] → ioR total = true →
      GC.collectOneLoop (GC.unackedKeyOf name) (GC.processingKeyOf name) ioR
        (fuel + 1) total st2 = (Except.ok total, st2)) := by
  refine ⟨fun ioR => rfl, ?_, ?_, ?_, ?_⟩
  · by_cases hz : (st.lists (GC.unackedKeyOf name)).length = 0
    · have h0 : st.lists (GC.unackedKeyOf name) = [] := List.length_eq_zero.mp hz
      refine ⟨?_, ?_, ?_⟩ <;> simp [GC.collect_one, hz, h0]
    · obtain ⟨h1, h2, h3, _⟩ := GC.collectOneLoop_success (GC.unackedKeyOf name)
        (GC.processingKeyOf name) (GC.keys_ne name)
        (st.lists (GC.unackedKeyOf name)).length 0 st rfl
      refine ⟨?_, ?_, ?_⟩ <;> simp [GC.collect_one, hz, h1, h2, h3]
  · intro ioR k h
    by_cases hz : (st.lists (GC.unackedKeyOf name)).length = 0
    · simp [GC.collect_one, hz] at h
      omega
    · simp only [GC.collect_one, if_true, hz, if_false] at h
      have := GC.collectOneLoop_le (GC.unackedKeyOf name) (GC.processingKeyOf name)
        ioR (st.lists (GC.unackedKeyOf name)).length 0 k st h
      omega
  · intro ioR h0 hne
    have hlz : (st.lists (GC.unackedKeyOf name)).length ≠ 0 := by
      intro h
      exact hne (List.length_eq_zero.mp h)
    rcases hn : (st.lists (GC.unackedKeyOf name)).length with _ | m
    · exact absurd hn hlz
    · simp [GC.collect_one, hn, GC.collectOneLoop, h0]
  · intro ioR fuel total st2 hempty hio
    simp [GC.collectOneLoop, hio, RedisState.rpoplpush, hempty]

theorem gc_collect_one_spec_witness :
    (GC.collect_one "c1" true (fun _ => true)
        ⟨fun k => if k = GC.unackedKeyOf "c1" then [[1], [2]] else [],
          fun _ => [], fun _ _ => none, fun _ => none⟩).1 = Except.ok 2 ∧
    (GC.collect_one "c1" true (fun _ => false)
        ⟨fun k => if k = GC.unackedKeyOf "c1" then [[1], [2]] else [],
          fun _ => [], fun _ _ => none, fun _ => none⟩).1 = Except.error () ∧
    GC.collectOneLoop (GC.unackedKeyOf "c1") (GC.processingKeyOf "c1")
        (fun _ => true) 3 5
        ⟨fun _ => [], fun _ => [], fun _ _ => none, fun _ => none⟩ =
      (Except.ok 5,
        ⟨fun _ => [], fun _ => [], fun _ _ => none, fun _ => none⟩) := by
  refine ⟨?_, ?_, ?_⟩
  · exact (gc_collect_one_spec "c1"
      ⟨fun k => if k = GC.unackedKeyOf "c1" then [[1], [2]] else [],
        fun _ => [], fun _ _ => none, fun _ => none⟩).2.1.1
  · exact (gc_collect_one_spec "c1"
      ⟨fun k => if k = GC.unackedKeyOf "c1" then [[1], [2]] else [],
        fun _ => [], fun _ _ => none, fun _ => none⟩).2.2.2.1
      (fun _ => false) rfl (by decide)
  · exact (gc_collect_one_spec "c1"
      ⟨fun k => if k = GC.unackedKeyOf "c1" then [[1], [2]] else [],
        fun _ => [], fun _ _ => none, fun _ => none⟩).2.2.2.2
      (fun _ => true) 2 5
      ⟨fun _ => [], fun _ => [], fun _ _ => none, fun _ => none⟩ rfl rfl

/-! ## C8: collect absorbs per-consumer errors -/

/-- C8: `GC::collect()` reads the registered consumer names via
`SMEMBERS` on the registry and iterates `collect_one` over them,
accumulating the counts; a `collect_one` that fails for one consumer
contributes zero and does not abort the sweep over the remaining
consumers (the accumulation loop always returns `Ok`). -/
theorem gc_collect_spec (ioL : String → Bool) (ioR : String → Nat → Bool)
    (st : RedisState) :
    (GC.collect true ioL ioR st = GC.collectGo ioL ioR (st.sets CONSUMERS_KEY) 0 st) ∧
    (∀ names total (st2 : RedisState), ∃ t st3,
      GC.collectGo ioL ioR names total st2 = (Except.ok t, st3)) ∧
    (∀ name rest total (st2 : RedisState),
      (GC.collect_one name (ioL name) (ioR name) st2).1 = Except.error () →
      GC.collectGo ioL ioR (name :: rest) total st2 =
        GC.collectGo ioL ioR rest total
          (GC.collect_one name (ioL name) (ioR name) st2).2) ∧
    (∀ name rest total (st2 : RedisState) i,
      (GC.collect_one name (ioL name) (ioR name) st2).1 = Except.ok i →
      GC.collectGo ioL ioR (name :: rest) total st2 =
        GC.collectGo ioL ioR rest (total + i)
          (GC.collect_one name (ioL name) (ioR name) st2).2) := by
  refine ⟨rfl, ?_, ?_, ?_⟩
  · intro names
    induction names with
    | nil => exact fun total st2 => ⟨total, st2, rfl⟩
    | cons name rest ih =>
      intro total st2
      obtain ⟨t, st3, h⟩ := ih
        (total + (match (GC.collect_one name (ioL name) (ioR name) st2).1 with
          | Except.error _ => 0 | Except.ok i => i))
        (GC.collect_one name (ioL name) (ioR name) st2).2
      exact ⟨t, st3, h⟩
  · intro name rest total st2 h
    simp [GC.collectGo, h]
  · intro name rest total st2 i h
    simp [GC.collectGo, h]

theorem gc_collect_spec_witness :
    GC.collectGo (fun _ => false) (fun _ _ => true) ["bad", "good"] 0
        ⟨fun k => if k = GC.unackedKeyOf "good" then [[1], [2]] else [],
          fun _ => [], fun _ _ => none, fun _ => none⟩ =
      GC.collectGo (fun _ => false) (fun _ _ => true) ["good"] 0
        (GC.collect_one "bad" false (fun _ => true)
          ⟨fun k => if k = GC.unackedKeyOf "good" then [[1], [2]] else [],
            fun _ => [], fun _ _ => none, fun _ => none⟩).2 ∧
    GC.collectGo (fun _ => true) (fun _ _ => true) ["good"] 0
        ⟨fun k => if k = GC.unackedKeyOf "good" then [[1], [2]] else [],
          fun _ => [], fun _ _ => none, fun _ => none⟩ =
      GC.collectGo (fun _ => true) (fun _ _ => true) [] (0 + 2)
        (GC.collect_one "good" true (fun _ => true)
          ⟨fun k => if k = GC.unackedKeyOf "good" then [[1], [2]] else [],
            fun _ => [], fun _ _ => none, fun _ => none⟩).2 ∧
    (∃ t st3, GC.collectGo (fun _ => false) (fun _ _ => true) ["bad", "good"] 0
        ⟨fun k => if k = GC.unackedKeyOf "good" then [[1], [2]] else [],
          fun _ => [], fun _ _ => none, fun _ => none⟩ = (Except.ok t, st3)) := by
  refine ⟨?_, ?_, ?_⟩
  · exact (gc_collect_spec (fun _ => false) (fun _ _ => true)
      ⟨fun k => if k = GC.unackedKeyOf "good" then [[1], [2]] else [],
        fun _ => [], fun _ _ => none, fun _ => none⟩).2.2.1 "bad" ["good"] 0
      ⟨fun k => if k = GC.unackedKeyOf "good" then [[1], [2]] else [],
        fun _ => [], fun _ _ => none, fun _ => none⟩ rfl
  · exact (gc_collect_spec (fun _ => true) (fun _ _ => true)
      ⟨fun k => if k = GC.unackedKeyOf "good" then [[1], [2]] else [],
        fun _ => [], fun _ _ => none, fun _ => none⟩).2.2.2 "good" [] 0
      ⟨fun k => if k = GC.unackedKeyOf "good" then [[1], [2]] else [],
        fun _ => [], fun _ _ => none, fun _ => none⟩ 2 rfl
  · exact (gc_collect_spec (fun _ => false) (fun _ _ => true)
      ⟨fun k => if k = GC.unackedKeyOf "good" then [[1], [2]] else [],
        fun _ => [], fun _ _ => none, fun _ => none⟩).2.1 ["bad", "good"] 0
      ⟨fun k => if k = GC.unackedKeyOf "good" then [[1], [2]] else [],
        fun _ => [], fun _ _ => none, fun _ => none⟩

/-! ## Counting lemmas for the no-loss invariant -/

theorem sumCount_not_mem (p : Payload) (f : String → List Payload) (q : String)
    (l : List Payload) :
    ∀ K : List String, q ∉ K →
      sumCount p (fun k => if k = q then l else f k) K = sumCount p f K := by
  intro K
  induction K with
  | nil => intro _; rfl
  | cons a ks ih =>
    intro hq
    have ha : a ≠ q := fun h => hq (h ▸ List.mem_cons_self a ks)
    have hks : q ∉ ks := fun h => hq (List.mem_cons_of_mem a h)
    simp only [sumCount, if_neg ha, ih hks]

theorem sumCount_update (p : Payload) (f : String → List Payload) (q : String)
    (l : List Payload) :
    ∀ K : List String, K.Nodup → q ∈ K →
      sumCount p (fun k => if k = q then l else f k) K + (f q).count p =
        sumCount p f K + l.count p := by
  intro K
  induction K with
  | nil => intro _ h; cases h
  | cons a ks ih =>
    intro hnd hq
    rw [List.nodup_cons] at hnd
    by_cases hqa : a = q
    · subst hqa
      have hks : a ∉ ks := hnd.1
      simp only [sumCount, sumCount_not_mem p f a l ks hks, eq_self_iff_true,
        if_true]
      omega
    · have hqks : q ∈ ks := by
        rcases List.mem_cons.mp hq with h | h
        · exact absurd h.symm hqa
        · exact h
      have := ih hnd.2 hqks
      simp only [sumCount, if_neg hqa]
      omega

theorem sumCount_setList (p : Payload) (st : RedisState) (q : String)
    (l : List Payload) (K : List String) (hnd : K.Nodup) (hq : q ∈ K) :
    sumCount p (st.setList q l).lists K + (st.lists q).count p =
      sumCount p st.lists K + l.count p :=
  sumCount_update p st.lists q l K hnd hq

theorem count_cons_split (p x : Payload) (l : List Payload) :
    (x :: l).count p = l.count p + (if p = x then 1 else 0) := by
  by_cases hp : p = x
  · subst hp
    simp
  · simp [List.count_cons_of_ne hp, hp]

theorem count_erase_split (p x : Payload) (l : List Payload) :
    (l.erase x).count p = l.count p - (if p = x then 1 else 0) := by
  by_cases hp : p = x
  · subst hp
    simp [List.count_erase_self]
  · simp [List.count_erase_of_ne hp, hp]

theorem sumCount_lpush_eq (p : Payload) (st : RedisState) (q : String) (pl : Payload)
    (K : List String) (hnd : K.Nodup) (hq : q ∈ K) :
    sumCount p (st.lpush q pl).lists K =
      sumCount p st.lists K + (if p = pl then 1 else 0) := by
  have h := sumCount_setList p st q (pl :: st.lists q) K hnd hq
  have hc := count_cons_split p pl (st.lists q)
  simp only [RedisState.lpush]
  omega

theorem sumCount_lrem1_bounds (p : Payload) (st : RedisState) (q : String)
    (pl : Payload) (K : List String) (hnd : K.Nodup) (hq : q ∈ K) :
    sumCount p (st.lrem1 q pl).lists K ≤ sumCount p st.lists K ∧
      sumCount p st.lists K ≤
        sumCount p (st.lrem1 q pl).lists K + (if p = pl then 1 else 0) := by
  have h := sumCount_setList p st q ((st.lists q).erase pl) K hnd hq
  have hc := count_erase_split p pl (st.lists q)
  have hle : (st.lists q).count p ≤ (st.lists q).count p := le_rfl
  simp only [RedisState.lrem1] at *
  by_cases hp : p = pl
  · simp only [if_pos hp] at hc ⊢
    omega
  · simp only [if_neg hp] at hc ⊢
    omega

theorem sumCount_rpoplpush_eq (p : Payload) (st : RedisState) (src dst : String)
    (K : List String) (hnd : K.Nodup) (hs : src ∈ K) (hd : dst ∈ K) :
    sumCount p (st.rpoplpush src dst).2.lists K = sumCount p st.lists K := by
  rcases hl : (st.lists src).getLast? with _ | x
  · simp [RedisState.rpoplpush, hl]
  · have hne : st.lists src ≠ [] := by
      intro h
      rw [h] at hl
      cases hl
    have hx : (st.lists src).getLast hne = x := by
      have h0 := List.getLast?_eq_getLast (st.lists src) hne
      rw [hl] at h0
      exact (Option.some.inj h0).symm
    have hsplit : (st.lists src).dropLast ++ [x] = st.lists src := by
      rw [← hx]
      exact List.dropLast_append_getLast hne
    have h1 := sumCount_setList p st src (st.lists src).dropLast K hnd hs
    have h2 := sumCount_lpush_eq p (st.setList src (st.lists src).dropLast) dst x K
      hnd hd
    have hcnt : (st.lists src).count p =
        ((st.lists src).dropLast).count p + (if p = x then 1 else 0) := by
      conv_lhs => rw [← hsplit]
      rw [List.count_append]
      by_cases hp : p = x
      · subst hp
        simp
      · simp [hp]
    simp only [RedisState.rpoplpush, hl]
    by_cases hp : p = x
    · simp only [if_pos hp] at h2 hcnt
      omega
    · simp only [if_neg hp] at h2 hcnt
      omega

theorem sumCount_guard_push_le (p : Payload) {T : Type} (g : MessageGuard T)
    (q : String) (io : Bool) (st : RedisState) (K : List String) (hnd : K.Nodup)
    (hq : q ∈ K) (hpq : g.processing_queue_name ∈ K) :
    sumCount p st.lists K ≤ sumCount p (g.push q io st).2.2.lists K := by
  cases io with
  | false => exact Nat.le_refl _
  | true =>
    have h1 := sumCount_lpush_eq p st q g.payload K hnd hq
    have h2 := (sumCount_lrem1_bounds p (st.lpush q g.payload)
      g.processing_queue_name g.payload K hnd hpq).2
    show sumCount p st.lists K ≤
      sumCount p ((st.lpush q g.payload).lrem1 g.processing_queue_name
        g.payload).lists K
    by_cases hp : p = g.payload
    · simp only [if_pos hp] at h1 h2
      omega
    · simp only [if_neg hp] at h1 h2
      omega

theorem sumCount_guard_reject_le (p : Payload) {T : Type} (g : MessageGuard T)
    (io : Bool) (st : RedisState) (K : List String) (hnd : K.Nodup)
    (huq : g.unacked_queue_name ∈ K) (hpq : g.processing_queue_name ∈ K) :
    sumCount p st.lists K ≤ sumCount p (g.reject io st).2.2.lists K :=
  sumCount_guard_push_le p { g with state := MessageState.Rejected }
    g.unacked_queue_name io st K hnd huq hpq

theorem no_loss_conserve {T : Type} (a : Act T) (s : Sys) (p : Payload)
    (K : List String) (hnd : K.Nodup) (htc : ∀ k ∈ a.touched, k ∈ K) :
    totalOver p K s ≤ totalOver p K (stepAct a s) := by
  cases a with
  | produce q pl io =>
    cases io with
    | false => exact Nat.le_refl _
    | true =>
      have hq : q ∈ K := htc q (List.mem_singleton.mpr rfl)
      have h := sumCount_lpush_eq p s.redis q pl K hnd hq
      show sumCount p s.redis.lists K + s.consumed.count p ≤
        sumCount p (s.redis.lpush q pl).lists K + s.consumed.count p
      omega
  | claim src dst io =>
    cases io with
    | false => exact Nat.le_refl _
    | true =>
      have hs : src ∈ K := htc src (by simp [Act.touched])
      have hd : dst ∈ K := htc dst (by simp [Act.touched])
      have h := sumCount_rpoplpush_eq p s.redis src dst K hnd hs hd
      show sumCount p s.redis.lists K + s.consumed.count p ≤
        sumCount p (s.redis.rpoplpush src dst).2.lists K + s.consumed.count p
      omega
  | ackA g io =>
    cases io with
    | false => exact Nat.le_refl _
    | true =>
      have hpq : g.processing_queue_name ∈ K :=
        htc g.processing_queue_name (List.mem_singleton.mpr rfl)
      have h := (sumCount_lrem1_bounds p s.redis g.processing_queue_name g.payload K
        hnd hpq).2
      have hcc := count_cons_split p g.payload s.consumed
      show sumCount p s.redis.lists K + s.consumed.count p ≤
        sumCount p (s.redis.lrem1 g.processing_queue_name g.payload).lists K +
          (g.payload :: s.consumed).count p
      rw [hcc]
      by_cases hp : p = g.payload
      · simp only [if_pos hp] at h ⊢
        omega
      · simp only [if_neg hp] at h ⊢
        omega
  | rejectA g io =>
    have huq : g.unacked_queue_name ∈ K := htc g.unacked_queue_name (by simp [Act.touched])
    have hpq : g.processing_queue_name ∈ K := htc g.processing_queue_name (by simp [Act.touched])
    have h := sumCount_guard_reject_le p g io s.redis K hnd huq hpq
    show sumCount p s.redis.lists K + s.consumed.count p ≤
      sumCount p (g.reject io s.redis).2.2.lists K + s.consumed.count p
    omega
  | pushA g q io =>
    have hq : q ∈ K := htc q (by simp [Act.touched])
    have hpq : g.processing_queue_name ∈ K := htc g.processing_queue_name (by simp [Act.touched])
    have h := sumCount_guard_push_le p g q io s.redis K hnd hq hpq
    show sumCount p s.redis.lists K + s.consumed.count p ≤
      sumCount p (g.push q io s.redis).2.2.lists K + s.consumed.count p
    omega
  | dropA g io =>
    by_cases hst : g.state = MessageState.Unacked
    · have hdrop : (g.drop io s.redis).2 = (g.reject io s.redis).2.2 := by
        simp [MessageGuard.drop, hst]
      have huq : g.unacked_queue_name ∈ K := htc g.unacked_queue_name (by simp [Act.touched])
      have hpq : g.processing_queue_name ∈ K := htc g.processing_queue_name (by simp [Act.touched])
      have h := sumCount_guard_reject_le p g io s.redis K hnd huq hpq
      show sumCount p s.redis.lists K + s.consumed.count p ≤
        sumCount p (g.drop io s.redis).2.lists K + s.consumed.count p
      rw [hdrop]
      omega
    · have hdrop : (g.drop io s.redis).2 = s.redis := by
        simp [MessageGuard.drop, hst]
      show sumCount p s.redis.lists K + s.consumed.count p ≤
        sumCount p (g.drop io s.redis).2.lists K + s.consumed.count p
      rw [hdrop]
  | gcMove uq pq io =>
    cases io with
    | false => exact Nat.le_refl _
    | true =>
      have hs : uq ∈ K := htc uq (by simp [Act.touched])
      have hd : pq ∈ K := htc pq (by simp [Act.touched])
      have h := sumCount_rpoplpush_eq p s.redis uq pq K hnd hs hd
      show sumCount p s.redis.lists K + s.consumed.count p ≤
        sumCount p (s.redis.rpoplpush uq pq).2.lists K + s.consumed.count p
      omega

theorem no_loss_deliver (c : Consumer) (hstop : c.stopped = false)
    (hsp : c.source_queue_name ≠ c.processing_queue_name)
    (hup : c.unacked_queue_name ≠ c.processing_queue_name) :
    ∀ (n : Nat) (st : RedisState) (cons : List Payload) (p : Payload),
      (st.lists c.source_queue_name).length ≤ n →
      p ∈ st.lists c.source_queue_name →
      ∃ ops : List ConsumerOp,
        p ∈ (runConsumerOps c ops ⟨st, cons⟩).redis.lists c.unacked_queue_name ∨
        p ∈ (runConsumerOps c ops ⟨st, cons⟩).consumed := by
  intro n
  induction n with
  | zero =>
    intro st cons p hlen hmem
    have h0 : st.lists c.source_queue_name = [] :=
      List.length_eq_zero.mp (Nat.le_zero.mp hlen)
    rw [h0] at hmem
    cases hmem
  | succ n ih =>
    intro st cons p hlen hmem
    have hne : st.lists c.source_queue_name ≠ [] := List.ne_nil_of_mem hmem
    have hlast : (st.lists c.source_queue_name).getLast? =
        some ((st.lists c.source_queue_name).getLast hne) :=
      List.getLast?_eq_getLast _ hne
    have hnext : c.next (fun pl => Except.ok pl) PopOutcome.good st =
        some (some (Except.ok
          { message := (st.lists c.source_queue_name).getLast hne
            payload := (st.lists c.source_queue_name).getLast hne
            processing_queue_name := c.processing_queue_name
            unacked_queue_name := c.unacked_queue_name
            state := MessageState.Unacked }),
          (st.setList c.source_queue_name
              (st.lists c.source_queue_name).dropLast).lpush
            c.processing_queue_name
            ((st.lists c.source_queue_name).getLast hne)) := by
      simp [Consumer.next, hstop, RedisState.rpoplpush, hlast]
    by_cases hx : (st.lists c.source_queue_name).getLast hne = p
    · refine ⟨[ConsumerOp.nextReject], Or.inl ?_⟩
      show p ∈ (runConsumerOp c ConsumerOp.nextReject ⟨st, cons⟩).redis.lists
        c.unacked_queue_name
      simp only [runConsumerOp, hnext, MessageGuard.reject, MessageGuard.push]
      simp [RedisState.lrem1, RedisState.lpush, hup, hx]
    · have hsplit : (st.lists c.source_queue_name).dropLast ++
          [(st.lists c.source_queue_name).getLast hne] =
          st.lists c.source_queue_name := List.dropLast_append_getLast hne
      have hrun : runConsumerOp c ConsumerOp.nextAck ⟨st, cons⟩ =
          ⟨((st.setList c.source_queue_name
                (st.lists c.source_queue_name).dropLast).lpush
              c.processing_queue_name
              ((st.lists c.source_queue_name).getLast hne)).lrem1
            c.processing_queue_name ((st.lists c.source_queue_name).getLast hne),
            (st.lists c.source_queue_name).getLast hne :: cons⟩ := by
        simp [runConsumerOp, hnext, MessageGuard.ack]
      have h2src : (((st.setList c.source_queue_name
          (st.lists c.source_queue_name).dropLast).lpush
            c.processing_queue_name
            ((st.lists c.source_queue_name).getLast hne)).lrem1
          c.processing_queue_name
            ((st.lists c.source_queue_name).getLast hne)).lists
          c.source_queue_name = (st.lists c.source_queue_name).dropLast := by
        simp [RedisState.lrem1, RedisState.lpush, hsp]
      have hlen2 : ((((st.setList c.source_queue_name
          (st.lists c.source_queue_name).dropLast).lpush
            c.processing_queue_name
            ((st.lists c.source_queue_name).getLast hne)).lrem1
          c.processing_queue_name
            ((st.lists c.source_queue_name).getLast hne)).lists
          c.source_queue_name).length ≤ n := by
        rw [h2src, List.length_dropLast]
        omega
      have hmem2 : p ∈ (((st.setList c.source_queue_name
          (st.lists c.source_queue_name).dropLast).lpush
            c.processing_queue_name
            ((st.lists c.source_queue_name).getLast hne)).lrem1
          c.processing_queue_name
            ((st.lists c.source_queue_name).getLast hne)).lists
          c.source_queue_name := by
        rw [h2src]
        have hm := hmem
        rw [← hsplit] at hm
        rcases List.mem_append.mp hm with h | h
        · exact h
        · exact absurd (List.mem_singleton.mp h).symm hx
      obtain ⟨ops, hops⟩ := ih _
        ((st.lists c.source_queue_name).getLast hne :: cons) p hlen2 hmem2
      refine ⟨ConsumerOp.nextAck :: ops, ?_⟩
      simp only [runConsumerOps]
      rw [hrun]
      exact hops

/-! ## C1: at-least-once, no loss -/

/-- C1: at-least-once / no-loss.  First conjunct: for every payload `p`
in the source queue `S` of a running consumer, there is a sequence of
`next/ack` or `next/reject` rounds — each executing `Consumer::next`
and then `ack` or `reject` on the guard that `next` returned — after
which `p` is in the unack queue `U(c)` or has been consumed (acked).
Second conjunct: no step of any participant — producer `LPUSH`, the
claim move of `next`, guard `ack`/`reject`/`push`/drop, or a GC
`RPOPLPUSH` — with any transport outcome decreases the number of copies
of any payload accounted for across any duplicate-free key set covering
the keys the step touches, counting acked payloads as consumed.  Third
conjunct: only `ack` steps consume, so in no interleaving does a
payload disappear without being acked. -/
theorem at_least_once_no_loss :
    (∀ (c : Consumer), c.stopped = false →
      c.source_queue_name ≠ c.processing_queue_name →
      c.unacked_queue_name ≠ c.processing_queue_name →
      ∀ (st : RedisState) (cons : List Payload) (p : Payload),
        p ∈ st.lists c.source_queue_name →
        ∃ ops : List ConsumerOp,
          p ∈ (runConsumerOps c ops ⟨st, cons⟩).redis.lists
            c.unacked_queue_name ∨
          p ∈ (runConsumerOps c ops ⟨st, cons⟩).consumed) ∧
    (∀ (T : Type) (a : Act T) (s : Sys) (p : Payload) (K : List String),
      K.Nodup → (∀ k ∈ a.touched, k ∈ K) →
      totalOver p K s ≤ totalOver p K (stepAct a s)) ∧
    (∀ (T : Type) (a : Act T) (s : Sys),
      (∀ (g : MessageGuard T) (io : Bool), a ≠ Act.ackA g io) →
      (stepAct a s).consumed = s.consumed) := by
  refine ⟨?_, ?_, ?_⟩
  · intro c hstop hsp hup st cons p hmem
    exact no_loss_deliver c hstop hsp hup (st.lists c.source_queue_name).length st
      cons p le_rfl hmem
  · intro T a s p K hnd htc
    exact no_loss_conserve a s p K hnd htc
  · intro T a s hna
    cases a with
    | produce q pl io => cases io <;> rfl
    | claim src dst io => cases io <;> rfl
    | ackA g io => exact absurd rfl (hna g io)
    | rejectA g io => rfl
    | pushA g q io => rfl
    | dropA g io =>
      by_cases hst : g.state = MessageState.Unacked <;> rfl
    | gcMove uq pq io => cases io <;> rfl

theorem at_least_once_no_loss_witness :
    (∃ ops : List ConsumerOp,
      ([5] : Payload) ∈ (runConsumerOps
        (⟨"c1", "s", "p", "u", "hb", "hbs", false⟩ : Consumer) ops
        ⟨⟨fun k => if k = "s" then [[5]] else [], fun _ => [], fun _ _ => none,
          fun _ => none⟩, []⟩).redis.lists "u" ∨
      ([5] : Payload) ∈ (runConsumerOps
        (⟨"c1", "s", "p", "u", "hb", "hbs", false⟩ : Consumer) ops
        ⟨⟨fun k => if k = "s" then [[5]] else [], fun _ => [], fun _ _ => none,
          fun _ => none⟩, []⟩).consumed) ∧
    totalOver [1] ["a"]
        ⟨⟨fun _ => [], fun _ => [], fun _ _ => none, fun _ => none⟩, []⟩ ≤
      totalOver [1] ["a"] (stepAct (Act.produce "a" [1] true : Act Unit)
        ⟨⟨fun _ => [], fun _ => [], fun _ _ => none, fun _ => none⟩, []⟩) ∧
    (stepAct (Act.produce "a" [1] true : Act Unit)
        ⟨⟨fun _ => [], fun _ => [], fun _ _ => none, fun _ => none⟩, []⟩).consumed =
      ([] : List Payload) := by
  refine ⟨?_, ?_, ?_⟩
  · exact at_least_once_no_loss.1
      (⟨"c1", "s", "p", "u", "hb", "hbs", false⟩ : Consumer) rfl (by decide)
      (by decide)
      ⟨fun k => if k = "s" then [[5]] else [], fun _ => [], fun _ _ => none,
        fun _ => none⟩ [] [5] (by decide)
  · exact at_least_once_no_loss.2.1 Unit (Act.produce "a" [1] true)
      ⟨⟨fun _ => [], fun _ => [], fun _ _ => none, fun _ => none⟩, []⟩ [1] ["a"]
      (by decide) (fun k hk => hk)
  · exact at_least_once_no_loss.2.2 Unit (Act.produce "a" [1] true)
      ⟨⟨fun _ => [], fun _ => [], fun _ _ => none, fun _ => none⟩, []⟩
      (fun g io h => nomatch h)

theorem guard_transition_before_io_witness :
    ((⟨(), [2], "p", "u", MessageState.Unacked⟩ : MessageGuard Unit).ack false
        ⟨fun _ => [], fun _ => [], fun _ _ => none, fun _ => none⟩).1.state =
      MessageState.Acked ∧
    ((⟨(), [2], "p", "u", MessageState.Unacked⟩ : MessageGuard Unit).ack false
        ⟨fun _ => [], fun _ => [], fun _ _ => none, fun _ => none⟩).2.2 =
      ⟨fun _ => [], fun _ => [], fun _ _ => none, fun _ => none⟩ :=
  ⟨(guard_transition_before_io
      (⟨(), [2], "p", "u", MessageState.Unacked⟩ : MessageGuard Unit) "q"
      ⟨fun _ => [], fun _ => [], fun _ _ => none, fun _ => none⟩).1 false,
    (guard_transition_before_io
      (⟨(), [2], "p", "u", MessageState.Unacked⟩ : MessageGuard Unit) "q"
      ⟨fun _ => [], fun _ => [], fun _ _ => none, fun _ => none⟩).2.2.2.1.1⟩

theorem consumer_heartbeat_spec_witness :
    ((⟨"c1", "q", "p", "u", "hb", "hbs", false⟩ : Consumer).heartbeat
        (Except.ok 123) 5000 true true
        ⟨fun _ => [], fun _ => [], fun _ _ => none, fun _ => none⟩).1 = 123 ∧
    ((⟨"c1", "q", "p", "u", "hb", "hbs", false⟩ : Consumer).heartbeat
        (Except.ok 123) 5000 true true
        ⟨fun _ => [], fun _ => [], fun _ _ => none, fun _ => none⟩).2.strings "hb" =
      some (toString (123 : Nat), 5000) :=
  ⟨(consumer_heartbeat_spec (⟨"c1", "q", "p", "u", "hb", "hbs", false⟩ : Consumer)
      (Except.ok 123) 5000
      ⟨fun _ => [], fun _ => [], fun _ _ => none, fun _ => none⟩).2.1 123 true true,
    (consumer_heartbeat_spec (⟨"c1", "q", "p", "u", "hb", "hbs", false⟩ : Consumer)
      (Except.ok 123) 5000
      ⟨fun _ => [], fun _ => [], fun _ _ => none, fun _ => none⟩).2.2.1.2⟩

theorem consumer_stop_spec_witness :
    ((⟨"c1", "q", "p", "u", "hb", "hbs", false⟩ : Consumer).stop false
        ⟨fun _ => [], fun _ => [], fun _ _ => none, fun _ => none⟩).1.is_stopped =
      true ∧
    ((⟨"c1", "q", "p", "u", "hb", "hbs", false⟩ : Consumer).stop false
        ⟨fun _ => [], fun _ => [], fun _ _ => none, fun _ => none⟩).1.next
        (fun _ => Except.ok (0 : Nat)) PopOutcome.good
        ⟨fun _ => [], fun _ => [], fun _ _ => none, fun _ => none⟩ =
      some (none, ⟨fun _ => [], fun _ => [], fun _ _ => none, fun _ => none⟩) :=
  ⟨(consumer_stop_spec (⟨"c1", "q", "p", "u", "hb", "hbs", false⟩ : Consumer) false
      ⟨fun _ => [], fun _ => [], fun _ _ => none, fun _ => none⟩
      (fun _ => Except.ok (0 : Nat)) PopOutcome.good
      ⟨fun _ => [], fun _ => [], fun _ _ => none, fun _ => none⟩).2.1,
    (consumer_stop_spec (⟨"c1", "q", "p", "u", "hb", "hbs", false⟩ : Consumer) false
      ⟨fun _ => [], fun _ => [], fun _ _ => none, fun _ => none⟩
      (fun _ => Except.ok (0 : Nat)) PopOutcome.good
      ⟨fun _ => [], fun _ => [], fun _ _ => none, fun _ => none⟩).2.2.2.2⟩
